import Mathlib

/-!
Verification of the QOI ("Quite OK Image") decoder of `src/src/lib.rs`
(crate `qoi-viewer`), as a shallow embedding in Lean 4.

Modelling conventions:
* A Rust `u8`/`u32` value is a `Nat`; wherever the source performs machine
  arithmetic that can overflow, the embedding writes the wraparound
  explicitly with `% 256` (u8).  Rust release semantics (wrapping) is used,
  since the spec describes the arithmetic as modular wraparound.
* A Rust slice `&[u8]` is a `List Nat`; theorems that need the values to be
  bytes carry the hypothesis `∀ b ∈ bytes, b < 256`.
* Indexing `bytes[i]` panics when out of bounds; panics are modelled as
  `Option`/`Except` failure.  The two explicit `panic!` calls of
  `decode_qoi` become the two error values of `QoiError`; an out-of-bounds
  slice access (or the `unreachable!` arm) during the pixel loop becomes
  `QoiError.pixelPanic`.
* Wrapping subtraction of a constant on u8 is written as addition of its
  complement: `x - 2  ≡ (x + 254) % 256`, `x - 32 ≡ (x + 224) % 256`,
  `x - 8 ≡ (x + 248) % 256`.
-/

/-- `struct QoiHeader` of lib.rs (all fields numeric). -/
structure QoiHeader where
  magic : Nat
  width : Nat
  height : Nat
  channels : Nat
  colorspace : Nat
deriving Repr, DecidableEq

/-- `struct QoiColor` of lib.rs: one RGBA color, a byte per channel. -/
structure QoiColor where
  r : Nat
  g : Nat
  b : Nat
  a : Nat
deriving Repr, DecidableEq

/-- `QoiColor::hash`: `(self.r * 3 + self.g * 5 + self.b * 7 + self.a * 11) as usize`,
computed on u8 with every `*` and `+` wrapping; a single final `% 256` of the exact
sum equals the nested u8 wraps because `% 256` distributes over `+` and `*`. -/
def QoiColor.hash (c : QoiColor) : Nat :=
  (c.r * 3 + c.g * 5 + c.b * 7 + c.a * 11) % 256

/-- `impl From<u32> for QoiColor` of lib.rs. -/
def QoiColor.fromU32 (color : Nat) : QoiColor :=
  { r := (color &&& 0xff000000) >>> 24
    g := (color &&& 0x00ff0000) >>> 16
    b := (color &&& 0x0000ff00) >>> 8
    a := color &&& 0x000000ff }

/-- `QOI_MAGIC`: the big-endian packing of the ASCII tag "qoif". -/
def QOI_MAGIC : Nat :=
  (0x71 <<< 24) ||| (0x6f <<< 16) ||| (0x69 <<< 8) ||| 0x66

def QOI_PIXELS_MAX : Nat := 400000000

def QOI_HEADER_SIZE : Nat := 14

def QOI_END_SEGMENT_SIZE : Nat := 8

/-- `enum QoiOp` of lib.rs. -/
inductive QoiOp where
  | index (i : Nat)
  | diff (c : QoiColor)
  | luma (vg : Nat)
  | run (runs : Nat)
  | rgb
  | rgba
  | unknown
deriving Repr, DecidableEq

/-- `impl From<u8> for QoiOp`.  The u8 wrapping subtractions of the source
(`x - 2`, `x - 32`) are written `(x + 254) % 256` and `(x + 224) % 256`. -/
def QoiOp.fromByte (b : Nat) : QoiOp :=
  if b = 0xfe then QoiOp.rgb
  else if b = 0xff then QoiOp.rgba
  else if b &&& 0xc0 = 0x00 then QoiOp.index b
  else if b &&& 0xc0 = 0x40 then
    QoiOp.diff
      { r := (((b >>> 4) &&& 0x03) + 254) % 256
        g := (((b >>> 2) &&& 0x03) + 254) % 256
        b := ((b &&& 0x03) + 254) % 256
        a := 0 }
  else if b &&& 0xc0 = 0x80 then QoiOp.luma (((b &&& 0x3f) + 224) % 256)
  else if b &&& 0xc0 = 0xc0 then QoiOp.run (b &&& 0x3f)
  else QoiOp.unknown

/-- `read_8`: `bytes[offset]`, advancing the cursor by 1.  The header reader
calls it only at offsets guarded by the `size < QOI_HEADER_SIZE` check, so a
total `getD` is faithful there; the pixel loop reads through `List.get?`
instead so that out-of-bounds panics are observable. -/
def read_8 (bytes : List Nat) (offset : Nat) : Nat :=
  bytes.getD offset 0

/-- `read_32`: four `read_8`s packed big-endian (`a << 24 | b << 16 | c << 8 | d`). -/
def read_32 (bytes : List Nat) (offset : Nat) : Nat :=
  (read_8 bytes offset) <<< 24 ||| (read_8 bytes (offset + 1)) <<< 16 |||
    (read_8 bytes (offset + 2)) <<< 8 ||| read_8 bytes (offset + 3)

/-- The header parse of `decode_qoi`: the cursor starts at 0 and advances by
4+4+4+1+1, so the five reads happen at fixed offsets 0, 4, 8, 12, 13. -/
def parseHeader (bytes : List Nat) : QoiHeader :=
  { magic := read_32 bytes 0
    width := read_32 bytes 4
    height := read_32 bytes 8
    channels := read_8 bytes 12
    colorspace := read_8 bytes 13 }

/-- The header-rejection condition of `decode_qoi`, in the source's order:
`width == 0 || height == 0 || channels < 3 || channels > 4 || colorspace > 1
 || magic != QOI_MAGIC || height >= QOI_PIXELS_MAX / width`. -/
def headerInvalid (h : QoiHeader) : Prop :=
  h.width = 0 ∨ h.height = 0 ∨ h.channels < 3 ∨ 4 < h.channels ∨
    1 < h.colorspace ∨ h.magic ≠ QOI_MAGIC ∨
    QOI_PIXELS_MAX / h.width ≤ h.height

instance (h : QoiHeader) : Decidable (headerInvalid h) := by
  unfold headerInvalid; infer_instance

/-- The validity predicate exactly as the spec states it: magic matches,
width ≠ 0, height ≠ 0, channels ∈ {3,4}, colorspace ∈ {0,1}, and
`height < 400_000_000 / width` with integer division in that order. -/
def headerValid (h : QoiHeader) : Prop :=
  h.magic = QOI_MAGIC ∧ h.width ≠ 0 ∧ h.height ≠ 0 ∧
    (h.channels = 3 ∨ h.channels = 4) ∧
    (h.colorspace = 0 ∨ h.colorspace = 1) ∧
    h.height < QOI_PIXELS_MAX / h.width

instance (h : QoiHeader) : Decidable (headerValid h) := by
  unfold headerValid; infer_instance

/-- The mutable state of the pixel loop of `decode_qoi`: `prev_color`,
`seen_colors` (the 64-slot cache), the pending `run` count and the byte
cursor `index`. -/
structure DecState where
  prev_color : QoiColor
  seen_colors : List QoiColor
  run : Nat
  index : Nat
deriving Repr, DecidableEq

/-- The opcode-processing `match` of the pixel loop: reads the opcode byte at
`s.index`, dispatches on `QoiOp::from`, updates `prev_color` / `run` and the
cursor.  The `seen_colors` write that follows the `match` in the source is
performed by `decodeStep`, not here. -/
def procOp (bytes : List Nat) (s : DecState) : Option DecState :=
  match bytes.get? s.index with
  | none => none
  | some b1 =>
    let i := s.index + 1
    match QoiOp.fromByte b1 with
    | QoiOp.rgb =>
      match bytes.get? i, bytes.get? (i + 1), bytes.get? (i + 2) with
      | some r, some g, some b =>
        some { s with prev_color := { s.prev_color with r := r, g := g, b := b }
                      index := i + 3 }
      | _, _, _ => none
    | QoiOp.rgba =>
      match bytes.get? i, bytes.get? (i + 1), bytes.get? (i + 2), bytes.get? (i + 3) with
      | some r, some g, some b, some a =>
        some { s with prev_color := { r := r, g := g, b := b, a := a }
                      index := i + 4 }
      | _, _, _, _ => none
    | QoiOp.index n =>
      match s.seen_colors.get? n with
      | some c => some { s with prev_color := c, index := i }
      | none => none
    | QoiOp.diff c =>
      some { s with
              prev_color :=
                { r := (s.prev_color.r + c.r) % 256
                  g := (s.prev_color.g + c.g) % 256
                  b := (s.prev_color.b + c.b) % 256
                  a := s.prev_color.a }
              index := i }
    | QoiOp.luma vg =>
      match bytes.get? i with
      | some b2 =>
        some { s with
                prev_color :=
                  { r := (s.prev_color.r + (((vg + 248) % 256) + ((b2 >>> 4) &&& 0x0f)) % 256) % 256
                    g := (s.prev_color.g + vg) % 256
                    b := (s.prev_color.b + (((vg + 248) % 256) + (b2 &&& 0x0f)) % 256) % 256
                    a := s.prev_color.a }
                index := i + 1 }
      | none => none
    | QoiOp.run runs => some { s with run := runs, index := i }
    | QoiOp.unknown => none

/-- One iteration of the pixel loop: the `run > 0` fast path, else the guarded
opcode dispatch followed by the unconditional cache write
`seen_colors[prev_color.hash() % 64] = prev_color`, else (cursor at or past
the end-marker boundary) no state change. -/
def decodeStep (bytes : List Nat) (chunks_len : Nat) (s : DecState) : Option DecState :=
  if 0 < s.run then
    some { s with run := s.run - 1 }
  else if s.index < chunks_len then
    match procOp bytes s with
    | some s' =>
      some { s' with
              seen_colors := s'.seen_colors.set (s'.prev_color.hash % 64) s'.prev_color }
    | none => none
  else
    some s

/-- The four output bytes written for one pixel:
`r, g, b, (if channels == 4 then a else 255)`.  The source always writes four
bytes per pixel because `ImageData` is RGBA-only. -/
def emitPixel (channels : Nat) (c : QoiColor) : List Nat :=
  [c.r, c.g, c.b, if channels = 4 then c.a else 255]

/-- The pixel loop `for px_pos in (0..px_len).step_by(4)`: one `decodeStep`
plus one `emitPixel` per pixel, `n` pixels in all. -/
def decodeLoop (bytes : List Nat) (chunks_len channels : Nat) :
    Nat → DecState → Option (List Nat)
  | 0, _ => some []
  | Nat.succ n, s =>
    match decodeStep bytes chunks_len s with
    | none => none
    | some s' =>
      match decodeLoop bytes chunks_len channels n s' with
      | none => none
      | some rest => some (emitPixel channels s'.prev_color ++ rest)

/-- The loop state at entry: `prev_color = QoiColor::from(0x000000FF)`,
`seen_colors = [QoiColor::from(0x000000FF); 64]`, `run = 0`, cursor just past
the header. -/
def initState : DecState :=
  { prev_color := QoiColor.fromU32 0x000000FF
    seen_colors := List.replicate 64 (QoiColor.fromU32 0x000000FF)
    run := 0
    index := QOI_HEADER_SIZE }

/-- The decoded result: header plus flat pixel bytes (`QoiImage` of lib.rs,
with `ImageData`'s pixel payload as the byte list). -/
structure QoiImage where
  header : QoiHeader
  bytes : List Nat
deriving Repr, DecidableEq

/-- The failure modes of `decode_qoi`:
`fileTooSmall` = `panic!("File too small to be a valid QOI image")`,
`notValidQoi`  = `panic!("Not a valid QOI image")`,
`pixelPanic`   = an out-of-bounds slice index or the `unreachable!` arm
inside the pixel loop. -/
inductive QoiError where
  | fileTooSmall
  | notValidQoi
  | pixelPanic
deriving Repr, DecidableEq

/-- `decode_qoi` of lib.rs.  The pixel count handed to the loop is
`width * height`: the source computes `px_len = (width * height * 4) as usize`
in u32 and iterates `(0..px_len).step_by(4)`; validation guarantees
`width * height < 400_000_000`, hence `width * height * 4 < 2^32`, so the u32
multiply is exact and the loop runs exactly `width * height` times. -/
def decode_qoi (bytes : List Nat) : Except QoiError QoiImage :=
  let size := bytes.length
  if size < QOI_HEADER_SIZE then
    Except.error QoiError.fileTooSmall
  else
    let header := parseHeader bytes
    if headerInvalid header then
      Except.error QoiError.notValidQoi
    else
      let chunks_len := size - QOI_END_SEGMENT_SIZE
      match decodeLoop bytes chunks_len header.channels (header.width * header.height) initState with
      | some px => Except.ok { header := header, bytes := px }
      | none => Except.error QoiError.pixelPanic

/-- Convenience predicate: `decode_qoi` got past header validation into the
pixel loop, i.e. it did not fail with either of the two header panics. -/
def decodeProceeds (bytes : List Nat) : Prop :=
  decode_qoi bytes ≠ Except.error QoiError.fileTooSmall ∧
    decode_qoi bytes ≠ Except.error QoiError.notValidQoi

/-- Modelled from the spec: the standalone `validate(bytes) -> bool` entry
point ("header-only sniff, no allocation of pixel data") is not present in
`src/src/lib.rs`, which only exports `decode_qoi`; this definition follows
the spec's words: at least a full 14-byte header, and the §4.1 validity
predicate — magic tag matches exactly, width ≠ 0, height ≠ 0,
channels ∈ {3,4}, colorspace ∈ {0,1}, `height < 400_000_000 / width`. -/
def validate (bytes : List Nat) : Bool :=
  if bytes.length < QOI_HEADER_SIZE then
    false
  else
    let h := parseHeader bytes
    decide (h.magic = QOI_MAGIC) && decide (h.width ≠ 0) && decide (h.height ≠ 0) &&
      decide (h.channels = 3 ∨ h.channels = 4) &&
      decide (h.colorspace = 0 ∨ h.colorspace = 1) &&
      decide (h.height < QOI_PIXELS_MAX / h.width)

/-! ### Concrete inputs used by witnesses and counterexamples -/

/-- A minimal well-formed QOI stream: 14-byte header (magic "qoif", 1×1, RGB,
sRGB), one RGB opcode with color (10,20,30), and the fixed 8-byte end marker. -/
def ex1 : List Nat :=
  [0x71, 0x6f, 0x69, 0x66, 0, 0, 0, 1, 0, 0, 0, 1, 3, 0,
   0xfe, 10, 20, 30,
   0, 0, 0, 0, 0, 0, 0, 1]

/-- The decoded result of `ex1`: note the four RGBA output bytes despite
`channels = 3`. -/
def ex1Image : QoiImage :=
  { header := parseHeader ex1, bytes := [10, 20, 30, 255] }

/-- A buffer shorter than the 14-byte header. -/
def exShort : List Nat := [0x71]

/-- 14 bytes, otherwise-valid fields but magic "poif" instead of "qoif". -/
def exBadMagic : List Nat :=
  [0x70, 0x6f, 0x69, 0x66, 0, 0, 0, 1, 0, 0, 0, 1, 3, 0]

/-- 14 bytes, valid magic and dimensions but `channels = 5`. -/
def exBadChannels : List Nat :=
  [0x71, 0x6f, 0x69, 0x66, 0, 0, 0, 1, 0, 0, 0, 1, 5, 0]

/-- A loop state about to read a RUN opcode: arbitrary color (9,8,7,6),
fresh cache, no pending run, cursor 0. -/
def exRunState : DecState :=
  ⟨⟨9, 8, 7, 6⟩, List.replicate 64 (QoiColor.fromU32 0x000000FF), 0, 0⟩

/-- The state after `exRunState` consumes the RUN opcode 0xc2 (count 2). -/
def exRunPost : DecState :=
  ⟨⟨9, 8, 7, 6⟩,
    (List.replicate 64 (QoiColor.fromU32 0x000000FF)).set
      (QoiColor.hash ⟨9, 8, 7, 6⟩ % 64) ⟨9, 8, 7, 6⟩,
    0xc2 &&& 0x3f, 1⟩

/-- A loop state about to read the DIFF opcode 0x40 (all three fields −2),
with `prev_color = (0,0,0,255)` — the spec's own wraparound example. -/
def exDiffState : DecState := ⟨⟨0, 0, 0, 255⟩, [], 0, 0⟩

/-- The state after `exDiffState` consumes 0x40: every channel wraps to 254. -/
def exDiffPost : DecState := ⟨⟨254, 254, 254, 255⟩, [], 0, 1⟩

/-- A loop state about to read the LUMA opcode 0x80 0x00 (vg = −32). -/
def exLumaState : DecState := ⟨⟨100, 50, 25, 7⟩, [], 0, 0⟩

/-- The state after `exLumaState` consumes 0x80 0x00. -/
def exLumaPost : DecState := ⟨⟨60, 18, 241, 7⟩, [], 0, 2⟩

/-! ### Header validation -/

/-- The spec's validity predicate is exactly the negation of the source's
rejection condition. -/
theorem headerValid_iff_not_invalid (h : QoiHeader) :
    headerValid h ↔ ¬ headerInvalid h := by
  unfold headerValid headerInvalid
  generalize QOI_PIXELS_MAX / h.width = q
  omega

/-- On a buffer of at least 14 bytes, header rejection yields exactly the
"Not a valid QOI image" panic. -/
theorem decode_header_reject (bytes : List Nat)
    (hlen : QOI_HEADER_SIZE ≤ bytes.length)
    (hv : ¬ headerValid (parseHeader bytes)) :
    decode_qoi bytes = Except.error QoiError.notValidQoi := by
  have hinv : headerInvalid (parseHeader bytes) := by
    by_contra hc
    exact hv ((headerValid_iff_not_invalid _).mpr hc)
  simp only [decode_qoi]
  rw [if_neg (by omega), if_pos hinv]

/-- `decode_qoi` reaches the pixel loop exactly on spec-valid headers
(buffers of at least 14 bytes). -/
theorem decodeProceeds_iff (bytes : List Nat)
    (hlen : QOI_HEADER_SIZE ≤ bytes.length) :
    decodeProceeds bytes ↔ headerValid (parseHeader bytes) := by
  unfold decodeProceeds
  simp only [decode_qoi]
  rw [if_neg (by omega : ¬ bytes.length < QOI_HEADER_SIZE)]
  by_cases hinv : headerInvalid (parseHeader bytes)
  · rw [if_pos hinv]
    simp [headerValid_iff_not_invalid, hinv]
  · rw [if_neg hinv]
    constructor
    · intro _
      exact (headerValid_iff_not_invalid _).mpr hinv
    · intro _
      constructor <;> (split <;> simp)

/-- C1: decode proceeds past header validation to pixel decoding if and only
if, for an input buffer of at least 14 bytes, the parsed header has magic
"qoif", width ≠ 0, height ≠ 0, channels ∈ {3,4}, colorspace ∈ {0,1} and
`height < 400_000_000 / width` (integer division, so height equal to the
quotient is rejected); when any condition fails decode fails with the
header panic and produces no pixel output. -/
theorem C1_header_gate (bytes : List Nat)
    (hlen : QOI_HEADER_SIZE ≤ bytes.length) :
    (decodeProceeds bytes ↔ headerValid (parseHeader bytes)) ∧
    (¬ headerValid (parseHeader bytes) →
      decode_qoi bytes = Except.error QoiError.notValidQoi) :=
  ⟨decodeProceeds_iff bytes hlen, decode_header_reject bytes hlen⟩

/-- Witness for C1 at the concrete valid input `ex1`. -/
theorem C1_header_gate_witness :
    QOI_HEADER_SIZE ≤ ex1.length ∧
    ((decodeProceeds ex1 ↔ headerValid (parseHeader ex1)) ∧
     (¬ headerValid (parseHeader ex1) →
       decode_qoi ex1 = Except.error QoiError.notValidQoi)) :=
  ⟨by decide, C1_header_gate ex1 (by decide)⟩

/-- C9 (spec-modelled `validate`): the standalone header-only check agrees
with the header check performed inside `decode_qoi` on acceptance versus
rejection, for every input buffer. -/
theorem C9_validate_agrees (bytes : List Nat) :
    validate bytes = true ↔ decodeProceeds bytes := by
  by_cases hlen : bytes.length < QOI_HEADER_SIZE
  · unfold validate
    rw [if_pos hlen]
    unfold decodeProceeds
    simp only [decode_qoi]
    rw [if_pos hlen]
    simp
  · unfold validate
    rw [if_neg hlen]
    rw [decodeProceeds_iff bytes (by omega)]
    unfold headerValid
    simp only [Bool.and_eq_true, decide_eq_true_eq, and_assoc]

/-- C8 counterexample: a bad-magic input and a bad-channels input produce the
*same* error value (the single "Not a valid QOI image" panic), so the code
does not report the distinct `BadMagic` / `BadChannels` / `BadDimensions` /
`BadColorspace` errors the claim names; only the too-short case is
distinguished. -/
theorem C8_counterexample :
    decode_qoi exBadMagic = Except.error QoiError.notValidQoi ∧
    decode_qoi exBadChannels = Except.error QoiError.notValidQoi ∧
    decode_qoi exBadMagic = decode_qoi exBadChannels ∧
    decode_qoi exShort = Except.error QoiError.fileTooSmall :=
  ⟨rfl, rfl, rfl, rfl⟩

/-- C8 as amended: decode failures are reported as exactly two distinct
errors — "File too small to be a valid QOI image" when fewer than 14 bytes
are supplied, and the single "Not a valid QOI image" error for every
header-field failure (bad magic, bad dimensions, bad channels, bad
colorspace alike). -/
theorem C8_two_errors (bytes : List Nat) :
    (bytes.length < QOI_HEADER_SIZE →
      decode_qoi bytes = Except.error QoiError.fileTooSmall) ∧
    (QOI_HEADER_SIZE ≤ bytes.length → ¬ headerValid (parseHeader bytes) →
      decode_qoi bytes = Except.error QoiError.notValidQoi) ∧
    QoiError.fileTooSmall ≠ QoiError.notValidQoi := by
  refine ⟨fun hlen => ?_, decode_header_reject bytes, by simp⟩
  simp only [decode_qoi]
  rw [if_pos hlen]

/-- Witness for C8 as amended, at the concrete inputs `exShort` (too short)
and `exBadChannels` (invalid header fields). -/
theorem C8_two_errors_witness :
    decode_qoi exShort = Except.error QoiError.fileTooSmall ∧
    decode_qoi exBadChannels = Except.error QoiError.notValidQoi :=
  ⟨(C8_two_errors exShort).1 (by decide),
   (C8_two_errors exBadChannels).2.1 (by decide) (by decide)⟩

/-! ### Pixel-loop lemmas -/

/-- Unfolding of one successful loop iteration. -/
theorem decodeLoop_succ_some {bytes : List Nat} {cl ch n : Nat} {s s' : DecState}
    (h : decodeStep bytes cl s = some s') :
    decodeLoop bytes cl ch (n + 1) s =
      match decodeLoop bytes cl ch n s' with
      | none => none
      | some rest => some (emitPixel ch s'.prev_color ++ rest) := by
  have e : decodeLoop bytes cl ch (n + 1) s =
      match decodeStep bytes cl s with
      | none => none
      | some s2 =>
        match decodeLoop bytes cl ch n s2 with
        | none => none
        | some rest => some (emitPixel ch s2.prev_color ++ rest) := rfl
  rw [e, h]

/-- Draining an active run: with `run = k`, the next `k` iterations consume no
bytes, change no state other than decrementing `run`, and emit `prev_color`
each time. -/
theorem decodeLoop_run_drain (bytes : List Nat) (cl ch : Nat) :
    ∀ k m (p : QoiColor) (sc : List QoiColor) (idx : Nat),
      decodeLoop bytes cl ch (k + m) ⟨p, sc, k, idx⟩ =
        (decodeLoop bytes cl ch m ⟨p, sc, 0, idx⟩).map
          (fun rest => (List.replicate k (emitPixel ch p)).flatten ++ rest) := by
  intro k
  induction k with
  | zero =>
    intro m p sc idx
    rw [Nat.zero_add]
    cases h : decodeLoop bytes cl ch m ⟨p, sc, 0, idx⟩ <;> simp [h]
  | succ k ih =>
    intro m p sc idx
    have hstep : decodeStep bytes cl ⟨p, sc, k + 1, idx⟩ = some ⟨p, sc, k, idx⟩ := by
      simp [decodeStep]
    have harith : k + 1 + m = (k + m) + 1 := by omega
    rw [harith, decodeLoop_succ_some hstep, ih m p sc idx]
    cases h : decodeLoop bytes cl ch m ⟨p, sc, 0, idx⟩ <;>
      simp [h, List.replicate_succ]

/-- Once the cursor is at or past the end-marker boundary (and whatever the
pending run count), every remaining iteration emits `prev_color` and reads
nothing. -/
theorem decodeLoop_pad (bytes : List Nat) (cl ch : Nat) :
    ∀ n (p : QoiColor) (sc : List QoiColor) (r idx : Nat), cl ≤ idx →
      decodeLoop bytes cl ch n ⟨p, sc, r, idx⟩ =
        some (List.replicate n (emitPixel ch p)).flatten := by
  intro n
  induction n with
  | zero => intro p sc r idx h; simp [decodeLoop]
  | succ n ih =>
    intro p sc r idx h
    rcases Nat.eq_zero_or_pos r with hr | hr
    · subst hr
      have hstep : decodeStep bytes cl ⟨p, sc, 0, idx⟩ = some ⟨p, sc, 0, idx⟩ := by
        simp [decodeStep, Nat.not_lt.mpr h]
      rw [decodeLoop_succ_some hstep, ih p sc 0 idx h]
      simp [List.replicate_succ]
    · have hstep : decodeStep bytes cl ⟨p, sc, r, idx⟩ = some ⟨p, sc, r - 1, idx⟩ := by
        simp [decodeStep, hr]
      rw [decodeLoop_succ_some hstep, ih p sc (r - 1) idx h]
      simp [List.replicate_succ]

theorem length_flatten_replicate (n : Nat) (l : List Nat) :
    (List.replicate n l).flatten.length = n * l.length := by
  induction n with
  | zero => simp
  | succ n ih => simp [List.replicate_succ, ih, Nat.succ_mul, Nat.add_comm]

/-- C7: once the byte cursor reaches or passes the end-marker boundary
(`chunks_len = buffer length − 8` at the `decode_qoi` call site) before all
pixels are produced, the decoder reads no further bytes — the result does not
depend on the buffer at all — and fills every remaining pixel with the
current `prev_color`, still returning a full-size (4 bytes per pixel) buffer
rather than an error. -/
theorem C7_tail_padding (bytes : List Nat) (cl ch n : Nat) (s : DecState)
    (h : cl ≤ s.index) :
    decodeLoop bytes cl ch n s =
        some (List.replicate n (emitPixel ch s.prev_color)).flatten ∧
    (List.replicate n (emitPixel ch s.prev_color)).flatten.length = 4 * n ∧
    (∀ bytes2 : List Nat, decodeLoop bytes2 cl ch n s = decodeLoop bytes cl ch n s) := by
  obtain ⟨p, sc, r, idx⟩ := s
  refine ⟨decodeLoop_pad bytes cl ch n p sc r idx h, ?_, ?_⟩
  · rw [length_flatten_replicate]
    simp [emitPixel, Nat.mul_comm]
  · intro bytes2
    rw [decodeLoop_pad bytes cl ch n p sc r idx h,
        decodeLoop_pad bytes2 cl ch n p sc r idx h]

/-- Witness for C7 at a concrete exhausted state: cursor 18 at boundary 18,
two pixels still owed, color (1,2,3,4). -/
theorem C7_tail_padding_witness :
    (18 : Nat) ≤ (⟨⟨1, 2, 3, 4⟩, [], 0, 18⟩ : DecState).index ∧
    (decodeLoop ex1 18 3 2 ⟨⟨1, 2, 3, 4⟩, [], 0, 18⟩ =
        some (List.replicate 2
          (emitPixel 3 (⟨⟨1, 2, 3, 4⟩, [], 0, 18⟩ : DecState).prev_color)).flatten ∧
     (List.replicate 2
        (emitPixel 3 (⟨⟨1, 2, 3, 4⟩, [], 0, 18⟩ : DecState).prev_color)).flatten.length = 4 * 2 ∧
     (∀ bytes2 : List Nat,
        decodeLoop bytes2 18 3 2 ⟨⟨1, 2, 3, 4⟩, [], 0, 18⟩ =
          decodeLoop ex1 18 3 2 ⟨⟨1, 2, 3, 4⟩, [], 0, 18⟩)) :=
  ⟨by decide, C7_tail_padding ex1 18 3 2 ⟨⟨1, 2, 3, 4⟩, [], 0, 18⟩ (by decide)⟩

/-- Every successful loop of `n` pixels emits exactly `4 * n` bytes. -/
theorem decodeLoop_length (bytes : List Nat) (cl ch : Nat) :
    ∀ n (s : DecState) (out : List Nat),
      decodeLoop bytes cl ch n s = some out → out.length = 4 * n := by
  intro n
  induction n with
  | zero =>
    intro s out h
    simp only [decodeLoop] at h
    cases h
    rfl
  | succ n ih =>
    intro s out h
    unfold decodeLoop at h
    split at h
    · exact Option.noConfusion h
    · split at h
      · exact Option.noConfusion h
      · rename_i x1 s' heq1 x2 rest heq2
        cases h
        have hlen := ih s' rest heq2
        simp [emitPixel]
        omega

/-- When `channels ≠ 4`, every fourth output byte (the alpha position of each
pixel) is the constant 255. -/
theorem decodeLoop_alpha (bytes : List Nat) (cl ch : Nat) (hch : ch ≠ 4) :
    ∀ n (s : DecState) (out : List Nat),
      decodeLoop bytes cl ch n s = some out →
      ∀ i, i < n → out.get? (4 * i + 3) = some 255 := by
  intro n
  induction n with
  | zero => intro s out h i hi; omega
  | succ n ih =>
    intro s out h i hi
    unfold decodeLoop at h
    split at h
    · exact Option.noConfusion h
    · split at h
      · exact Option.noConfusion h
      · rename_i x1 s' heq1 x2 rest heq2
        cases h
        match i with
        | 0 => simp [emitPixel, hch]
        | Nat.succ j =>
          have hj : j < n := by omega
          have hrec := ih s' rest heq2 j hj
          rw [show 4 * (j + 1) + 3 = 4 * j + 3 + 1 + 1 + 1 + 1 by omega]
          simpa [emitPixel, List.cons_append] using hrec

/-- C2 counterexample: the 1×1, `channels = 3` image `ex1` decodes
successfully, yet its output buffer has 4 bytes — an alpha byte (255) is
present — whereas the claim demands length `width * height * channels = 3`
with no alpha byte at all. -/
theorem C2_counterexample :
    decode_qoi ex1 = Except.ok ex1Image ∧
    ex1Image.bytes.length = 4 ∧
    ex1Image.header.channels = 3 ∧
    ex1Image.header.width * ex1Image.header.height * ex1Image.header.channels = 3 ∧
    (4 : Nat) ≠ 3 ∧
    ex1Image.bytes.get? 3 = some 255 :=
  ⟨rfl, rfl, rfl, rfl, by decide, rfl⟩

/-- C2 as amended: every successfully decoded image has an output buffer of
length `width * height * 4` — four bytes per pixel regardless of `channels`,
because `ImageData` is RGBA-only — and when `channels = 3` the alpha byte of
every pixel is written as the default 255 (not omitted). -/
theorem C2_output_rgba (bytes : List Nat) (img : QoiImage)
    (h : decode_qoi bytes = Except.ok img) :
    img.bytes.length = img.header.width * img.header.height * 4 ∧
    (img.header.channels = 3 →
      ∀ i, i < img.header.width * img.header.height →
        img.bytes.get? (4 * i + 3) = some 255) := by
  simp only [decode_qoi] at h
  split at h
  · exact Except.noConfusion h
  · split at h
    · exact Except.noConfusion h
    · split at h
      · rename_i x1 px heq
        cases h
        constructor
        · have hlen := decodeLoop_length bytes (bytes.length - QOI_END_SEGMENT_SIZE)
            (parseHeader bytes).channels
            ((parseHeader bytes).width * (parseHeader bytes).height) initState px heq
          simpa [Nat.mul_comm] using hlen
        · intro hch i hi
          have hch' : (parseHeader bytes).channels = 3 := hch
          exact decodeLoop_alpha bytes (bytes.length - QOI_END_SEGMENT_SIZE)
            (parseHeader bytes).channels (by omega)
            ((parseHeader bytes).width * (parseHeader bytes).height) initState px heq i hi
      · exact Except.noConfusion h

/-- Witness for C2 as amended at the concrete input `ex1`. -/
theorem C2_output_rgba_witness :
    decode_qoi ex1 = Except.ok ex1Image ∧
    (ex1Image.bytes.length = ex1Image.header.width * ex1Image.header.height * 4 ∧
     (ex1Image.header.channels = 3 →
       ∀ i, i < ex1Image.header.width * ex1Image.header.height →
         ex1Image.bytes.get? (4 * i + 3) = some 255)) :=
  ⟨rfl, C2_output_rgba ex1 ex1Image rfl⟩

/-- C3: a RUN opcode byte (top two bits 11, not 0xFE/0xFF) with count
`c = b1 &&& 0x3F`, read in a state with no pending run, makes the decoder
emit the current `prev_color` for exactly `c + 1` consecutive pixels (the
opcode's own pixel plus `c` run continuations); the continuation pixels
consume no input byte (the cursor advances only by the single opcode byte)
and leave `prev_color` unchanged. -/
theorem C3_run_expansion (bytes : List Nat) (cl ch m : Nat) (s : DecState) (b1 : Nat)
    (hrun : s.run = 0) (hidx : s.index < cl)
    (hb : bytes.get? s.index = some b1)
    (hne1 : b1 ≠ 0xfe) (hne2 : b1 ≠ 0xff) (hm : b1 &&& 0xc0 = 0xc0) :
    decodeLoop bytes cl ch ((b1 &&& 0x3f) + 1 + m) s =
      (decodeLoop bytes cl ch m
          ⟨s.prev_color,
            s.seen_colors.set (s.prev_color.hash % 64) s.prev_color, 0,
            s.index + 1⟩).map
        (fun rest =>
          (List.replicate ((b1 &&& 0x3f) + 1) (emitPixel ch s.prev_color)).flatten ++ rest) := by
  obtain ⟨p, sc, r, idx⟩ := s
  have hr : r = 0 := hrun
  subst hr
  have hb' : bytes.get? idx = some b1 := hb
  rw [List.get?_eq_getElem?] at hb'
  have hidx' : idx < cl := hidx
  have hstep : decodeStep bytes cl ⟨p, sc, 0, idx⟩ =
      some ⟨p, sc.set (p.hash % 64) p, b1 &&& 0x3f, idx + 1⟩ := by
    simp [decodeStep, procOp, hb', hidx', QoiOp.fromByte, hne1, hne2, hm]
  have harith : (b1 &&& 0x3f) + 1 + m = ((b1 &&& 0x3f) + m) + 1 := by omega
  rw [harith, decodeLoop_succ_some hstep,
    decodeLoop_run_drain bytes cl ch (b1 &&& 0x3f) m p (sc.set (p.hash % 64) p) (idx + 1)]
  cases h : decodeLoop bytes cl ch m ⟨p, sc.set (p.hash % 64) p, 0, idx + 1⟩ <;>
    simp [h, List.replicate_succ]

/-- Witness for C3: the RUN opcode 0xc2 (count 2) in state `exRunState`
emits 3 pixels of the color (9,8,7). -/
theorem C3_run_expansion_witness :
    exRunState.run = 0 ∧ exRunState.index < 1 ∧
    [0xc2].get? exRunState.index = some 0xc2 ∧
    decodeLoop [0xc2] 1 3 ((0xc2 &&& 0x3f) + 1 + 0) exRunState =
      (decodeLoop [0xc2] 1 3 0
          ⟨exRunState.prev_color,
            exRunState.seen_colors.set
              (exRunState.prev_color.hash % 64) exRunState.prev_color, 0,
            exRunState.index + 1⟩).map
        (fun rest =>
          (List.replicate ((0xc2 &&& 0x3f) + 1)
            (emitPixel 3 exRunState.prev_color)).flatten ++ rest) :=
  ⟨rfl, by decide, rfl,
   C3_run_expansion [0xc2] 1 3 0 exRunState 0xc2 rfl (by decide) rfl
     (by decide) (by decide) (by decide)⟩

/-- C4: all DIFF and LUMA channel arithmetic is modular 8-bit wraparound.
For a DIFF opcode byte `b1` (top bits 01) each of r,g,b is incremented by its
2-bit field minus 2 modulo 256 (so `r = 0` with field value −2 yields 254);
for a LUMA opcode `b1 b2` (top bits 10), with `vg = (b1 &&& 0x3F) − 32`:
`g += vg`, `r += vg − 8 + ((b2 >>> 4) &&& 0xF)`, `b += vg − 8 + (b2 &&& 0xF)`,
all modulo 256; alpha is untouched by both. -/
theorem C4_wraparound :
    (∀ (bytes : List Nat) (cl : Nat) (s s' : DecState) (b1 : Nat),
      s.run = 0 → s.index < cl → bytes.get? s.index = some b1 →
      b1 &&& 0xc0 = 0x40 → decodeStep bytes cl s = some s' →
        (s'.prev_color.r : Int) =
            ((s.prev_color.r : Int) + (((b1 >>> 4) &&& 0x03 : Nat) : Int) - 2) % 256 ∧
        (s'.prev_color.g : Int) =
            ((s.prev_color.g : Int) + (((b1 >>> 2) &&& 0x03 : Nat) : Int) - 2) % 256 ∧
        (s'.prev_color.b : Int) =
            ((s.prev_color.b : Int) + ((b1 &&& 0x03 : Nat) : Int) - 2) % 256 ∧
        s'.prev_color.a = s.prev_color.a) ∧
    (∀ (bytes : List Nat) (cl : Nat) (s s' : DecState) (b1 b2 : Nat),
      s.run = 0 → s.index < cl → bytes.get? s.index = some b1 →
      bytes.get? (s.index + 1) = some b2 →
      b1 &&& 0xc0 = 0x80 → decodeStep bytes cl s = some s' →
        (s'.prev_color.g : Int) =
            ((s.prev_color.g : Int) + (((b1 &&& 0x3f : Nat) : Int) - 32)) % 256 ∧
        (s'.prev_color.r : Int) =
            ((s.prev_color.r : Int) + (((b1 &&& 0x3f : Nat) : Int) - 32) - 8 +
              (((b2 >>> 4) &&& 0x0f : Nat) : Int)) % 256 ∧
        (s'.prev_color.b : Int) =
            ((s.prev_color.b : Int) + (((b1 &&& 0x3f : Nat) : Int) - 32) - 8 +
              ((b2 &&& 0x0f : Nat) : Int)) % 256 ∧
        s'.prev_color.a = s.prev_color.a) := by
  constructor
  · intro bytes cl s s' b1 hrun hidx hb hm hstep
    obtain ⟨p, sc, r, idx⟩ := s
    have hr : r = 0 := hrun
    subst hr
    have hb' : bytes.get? idx = some b1 := hb
    rw [List.get?_eq_getElem?] at hb'
    have hidx' : idx < cl := hidx
    have hne1 : b1 ≠ 0xfe := by
      rintro rfl; exact absurd hm (by decide)
    have hne2 : b1 ≠ 0xff := by
      rintro rfl; exact absurd hm (by decide)
    simp [decodeStep, procOp, QoiColor.hash, QoiOp.fromByte,
      hne1, hne2, hm, hb', hidx'] at hstep
    subst hstep
    refine ⟨?_, ?_, ?_, rfl⟩ <;>
      · simp only
        push_cast
        omega
  · intro bytes cl s s' b1 b2 hrun hidx hb hb2 hm hstep
    obtain ⟨p, sc, r, idx⟩ := s
    have hr : r = 0 := hrun
    subst hr
    have hb' : bytes.get? idx = some b1 := hb
    rw [List.get?_eq_getElem?] at hb'
    have hb2' : bytes.get? (idx + 1) = some b2 := hb2
    rw [List.get?_eq_getElem?] at hb2'
    have hidx' : idx < cl := hidx
    have hne1 : b1 ≠ 0xfe := by
      rintro rfl; exact absurd hm (by decide)
    have hne2 : b1 ≠ 0xff := by
      rintro rfl; exact absurd hm (by decide)
    simp [decodeStep, procOp, QoiColor.hash, QoiOp.fromByte,
      hne1, hne2, hm, hb', hb2', hidx'] at hstep
    subst hstep
    refine ⟨?_, ?_, ?_, rfl⟩ <;>
      · simp only
        push_cast
        omega

/-- Witness for C4: the DIFF opcode 0x40 (every field −2) on color
(0,0,0,255) — each channel wraps to 254 — and the LUMA opcode 0x80 0x00
(vg = −32) on color (100,50,25,7). -/
theorem C4_wraparound_witness :
    (decodeStep [0x40] 1 exDiffState = some exDiffPost ∧
     ((exDiffPost.prev_color.r : Int) =
        ((exDiffState.prev_color.r : Int) + (((0x40 >>> 4) &&& 0x03 : Nat) : Int) - 2) % 256 ∧
      (exDiffPost.prev_color.g : Int) =
        ((exDiffState.prev_color.g : Int) + (((0x40 >>> 2) &&& 0x03 : Nat) : Int) - 2) % 256 ∧
      (exDiffPost.prev_color.b : Int) =
        ((exDiffState.prev_color.b : Int) + ((0x40 &&& 0x03 : Nat) : Int) - 2) % 256 ∧
      exDiffPost.prev_color.a = exDiffState.prev_color.a)) ∧
    (decodeStep [0x80, 0x00] 1 exLumaState = some exLumaPost ∧
     ((exLumaPost.prev_color.g : Int) =
        ((exLumaState.prev_color.g : Int) + (((0x80 &&& 0x3f : Nat) : Int) - 32)) % 256 ∧
      (exLumaPost.prev_color.r : Int) =
        ((exLumaState.prev_color.r : Int) + (((0x80 &&& 0x3f : Nat) : Int) - 32) - 8 +
          (((0x00 >>> 4) &&& 0x0f : Nat) : Int)) % 256 ∧
      (exLumaPost.prev_color.b : Int) =
        ((exLumaState.prev_color.b : Int) + (((0x80 &&& 0x3f : Nat) : Int) - 32) - 8 +
          ((0x00 &&& 0x0f : Nat) : Int)) % 256 ∧
      exLumaPost.prev_color.a = exLumaState.prev_color.a)) :=
  ⟨⟨by decide,
    C4_wraparound.1 [0x40] 1 exDiffState exDiffPost 0x40 rfl (by decide) rfl
      (by decide) (by decide)⟩,
   ⟨by decide,
    C4_wraparound.2 [0x80, 0x00] 1 exLumaState exLumaPost 0x80 0x00 rfl (by decide)
      rfl rfl (by decide) (by decide)⟩⟩

/-- `procOp` never touches the cache: the `seen_colors` write happens after
the opcode `match` in the source, not inside it. -/
theorem procOp_seen_colors (bytes : List Nat) (s p : DecState)
    (h : procOp bytes s = some p) : p.seen_colors = s.seen_colors := by
  unfold procOp at h
  cases hb : bytes.get? s.index <;> rw [hb] at h
  case none => exact Option.noConfusion h
  case some b1 =>
  dsimp only at h
  cases hop : QoiOp.fromByte b1 <;> rw [hop] at h <;> dsimp only at h
  case index n =>
    cases hc : s.seen_colors.get? n <;> rw [hc] at h
    · exact Option.noConfusion h
    · cases h; rfl
  case diff c =>
    cases h; rfl
  case luma vg =>
    cases h2 : bytes.get? (s.index + 1) <;> rw [h2] at h
    · exact Option.noConfusion h
    · cases h; rfl
  case run runs =>
    cases h; rfl
  case rgb =>
    cases h1 : bytes.get? (s.index + 1) <;>
      cases h2 : bytes.get? (s.index + 1 + 1) <;>
      cases h3 : bytes.get? (s.index + 1 + 2) <;>
      rw [h1, h2, h3] at h <;>
      first
        | exact Option.noConfusion h
        | (cases h; rfl)
  case rgba =>
    cases h1 : bytes.get? (s.index + 1) <;>
      cases h2 : bytes.get? (s.index + 1 + 1) <;>
      cases h3 : bytes.get? (s.index + 1 + 2) <;>
      cases h4 : bytes.get? (s.index + 1 + 3) <;>
      rw [h1, h2, h3, h4] at h <;>
      first
        | exact Option.noConfusion h
        | (cases h; rfl)
  case unknown =>
    exact Option.noConfusion h

set_option maxRecDepth 4096

/-- A byte whose top two bits are clear equals its own 6-bit value and is a
valid cache slot. -/
theorem byte_mask_facts :
    ∀ b : Fin 256, b.val &&& 0xc0 = 0 → b.val &&& 0x3f = b.val ∧ b.val < 64 := by
  decide

/-- C5: an INDEX opcode resolves `prev_color` to exactly the current content
of cache slot `b1` (which equals its own 6-bit value), the cache starts as 64
copies of (0,0,0,255), and any decode step either leaves a slot unchanged or
overwrites it with the pixel color it just resolved — so an INDEX read
returns the last color written to that slot, or the initial (0,0,0,255) when
the slot was never written. -/
theorem C5_index_cache :
    (∀ i, i < 64 → initState.seen_colors.get? i = some ⟨0, 0, 0, 255⟩) ∧
    (∀ (bytes : List Nat) (cl : Nat) (s : DecState) (b1 : Nat),
      s.run = 0 → s.index < cl → bytes.get? s.index = some b1 → b1 < 256 →
      b1 &&& 0xc0 = 0x00 →
        b1 &&& 0x3f = b1 ∧
        decodeStep bytes cl s =
          (s.seen_colors.get? b1).map
            (fun c => ⟨c, s.seen_colors.set (c.hash % 64) c, 0, s.index + 1⟩)) ∧
    (∀ (bytes : List Nat) (cl : Nat) (s s' : DecState),
      decodeStep bytes cl s = some s' →
      ∀ i, s'.seen_colors.get? i = s.seen_colors.get? i ∨
           s'.seen_colors.get? i = some s'.prev_color) := by
  refine ⟨?_, ?_, ?_⟩
  · intro i hi
    simp only [initState]
    rw [List.get?_eq_getElem?, List.getElem?_replicate, if_pos hi]
    decide
  · intro bytes cl s b1 hrun hidx hb hlt hm
    obtain ⟨p, sc, r, idx⟩ := s
    have hr : r = 0 := hrun
    subst hr
    have hb' : bytes.get? idx = some b1 := hb
    rw [List.get?_eq_getElem?] at hb'
    have hidx' : idx < cl := hidx
    have hne1 : b1 ≠ 0xfe := by
      rintro rfl; exact absurd hm (by decide)
    have hne2 : b1 ≠ 0xff := by
      rintro rfl; exact absurd hm (by decide)
    refine ⟨(byte_mask_facts ⟨b1, hlt⟩ hm).1, ?_⟩
    cases hc : sc.get? b1 with
    | none =>
      rw [List.get?_eq_getElem?] at hc
      simp [decodeStep, procOp, QoiOp.fromByte, hne1, hne2, hm, hb', hidx', hc]
    | some c =>
      rw [List.get?_eq_getElem?] at hc
      simp [decodeStep, procOp, QoiOp.fromByte, QoiColor.hash,
        hne1, hne2, hm, hb', hidx', hc]
  · intro bytes cl s s' hstep i
    unfold decodeStep at hstep
    split at hstep
    · cases hstep
      left
      rfl
    · split at hstep
      · split at hstep
        · rename_i p hp
          cases hstep
          have hsc := procOp_seen_colors bytes s p hp
          by_cases hi : p.prev_color.hash % 64 = i
          · subst hi
            have he := List.get?_set_eq p.prev_color (p.prev_color.hash % 64) p.seen_colors
            cases hcc : p.seen_colors.get? (p.prev_color.hash % 64) with
            | none =>
              left
              rw [← hsc, he, hcc]
              try rfl
            | some c =>
              right
              rw [hcc] at he
              simpa using he
          · left
            have he := List.get?_set_ne p.prev_color p.seen_colors hi
            rw [← hsc]
            exact he
        · exact Option.noConfusion hstep
      · cases hstep
        left
        rfl

/-- Witness for C5: slot 5 of a fresh cache holds (0,0,0,255); the INDEX
opcode 0x05 reads slot 5 of `exRunState`; and the RUN step
`exRunState → exRunPost` only rewrites the resolved color's own slot. -/
theorem C5_index_cache_witness :
    ((5 : Nat) < 64 ∧ initState.seen_colors.get? 5 = some ⟨0, 0, 0, 255⟩) ∧
    ((0x05 : Nat) &&& 0x3f = 0x05 ∧
      decodeStep [0x05] 1 exRunState =
        (exRunState.seen_colors.get? 0x05).map
          (fun c => ⟨c, exRunState.seen_colors.set (c.hash % 64) c, 0,
            exRunState.index + 1⟩)) ∧
    (exRunPost.seen_colors.get? 0 = exRunState.seen_colors.get? 0 ∨
     exRunPost.seen_colors.get? 0 = some exRunPost.prev_color) :=
  ⟨⟨by decide, C5_index_cache.1 5 (by decide)⟩,
   C5_index_cache.2.1 [0x05] 1 exRunState 0x05 rfl (by decide) rfl (by decide) (by decide),
   C5_index_cache.2.2 [0xc2] 1 exRunState exRunPost (by decide) 0⟩

/-- C6: the cache is updated exactly on opcode-resolved iterations and never
on run continuations: after an iteration that consumed an opcode byte
(including INDEX and RUN opcodes), the new cache is the old one with slot
`hash(prev_color) % 64` — hash computed as r*3 + g*5 + b*7 + a*11 in 8-bit
wraparound — overwritten by the resolved `prev_color`, and that slot then
holds the resolved `prev_color`; an iteration that only continues an active
run leaves all 64 cache slots unchanged. -/
theorem C6_cache_update (bytes : List Nat) (cl : Nat) (s s' : DecState)
    (hlen : s.seen_colors.length = 64)
    (hstep : decodeStep bytes cl s = some s') :
    ((s.run = 0 ∧ s.index < cl) →
      s'.seen_colors = s.seen_colors.set (s'.prev_color.hash % 64) s'.prev_color ∧
      s'.seen_colors.get? (s'.prev_color.hash % 64) = some s'.prev_color) ∧
    (0 < s.run → s'.seen_colors = s.seen_colors) := by
  constructor
  · rintro ⟨hrun, hidx⟩
    unfold decodeStep at hstep
    rw [if_neg (by omega), if_pos hidx] at hstep
    split at hstep
    · rename_i p hp
      cases hstep
      have hsc := procOp_seen_colors bytes s p hp
      constructor
      · simp [hsc]
      · have hlt : p.prev_color.hash % 64 < p.seen_colors.length := by
          rw [hsc, hlen]
          exact Nat.mod_lt _ (by norm_num)
        exact List.get?_set_eq_of_lt _ hlt
    · exact Option.noConfusion hstep
  · intro hr
    unfold decodeStep at hstep
    rw [if_pos hr] at hstep
    cases hstep
    rfl

/-- Witness for C6 at the RUN step `exRunState → exRunPost`. -/
theorem C6_cache_update_witness :
    exRunState.seen_colors.length = 64 ∧
    decodeStep [0xc2] 1 exRunState = some exRunPost ∧
    (((exRunState.run = 0 ∧ exRunState.index < 1) →
       exRunPost.seen_colors =
         exRunState.seen_colors.set
           (exRunPost.prev_color.hash % 64) exRunPost.prev_color ∧
       exRunPost.seen_colors.get? (exRunPost.prev_color.hash % 64) =
         some exRunPost.prev_color) ∧
     (0 < exRunState.run → exRunPost.seen_colors = exRunState.seen_colors)) :=
  ⟨by decide, by decide,
   C6_cache_update [0xc2] 1 exRunState exRunPost (by decide) (by decide)⟩

/-- Classifying a byte as INDEX means the byte itself is the slot number and
its top two bits are clear. -/
theorem fromByte_index (b n : Nat) (h : QoiOp.fromByte b = QoiOp.index n) :
    n = b ∧ b &&& 0xc0 = 0 := by
  unfold QoiOp.fromByte at h
  split_ifs at h <;> simp_all

/-- The opcode bit patterns are exhaustive on bytes: `Unknown` is unreachable. -/
theorem fromByte_ne_unknown : ∀ b : Fin 256, QoiOp.fromByte b.val ≠ QoiOp.unknown := by
  decide

/-- A decode step never changes the cache's size. -/
theorem decodeStep_seen_length (bytes : List Nat) (cl : Nat) (s s' : DecState)
    (h : decodeStep bytes cl s = some s') :
    s'.seen_colors.length = s.seen_colors.length := by
  unfold decodeStep at h
  split at h
  · cases h; rfl
  · split at h
    · split at h
      · rename_i p hp
        cases h
        have hsc := procOp_seen_colors bytes s p hp
        simp [List.length_set, hsc]
      · exact Option.noConfusion h
    · cases h; rfl

/-- Inside the guard `index < chunks_len` with `chunks_len + 8 ≤ length`, the
opcode dispatch always succeeds: every read (at most 4 bytes past the opcode
byte) is in bounds, and an INDEX slot is always below 64. -/
theorem procOp_total (bytes : List Nat) (cl : Nat) (s : DecState)
    (hidx : s.index < cl) (hcl : cl + 8 ≤ bytes.length)
    (hbytes : ∀ b ∈ bytes, b < 256) (hlen : s.seen_colors.length = 64) :
    ∃ p, procOp bytes s = some p := by
  have hread : ∀ j, j < bytes.length → ∃ b, bytes.get? j = some b := by
    intro j hj
    cases hb : bytes.get? j with
    | none => rw [List.get?_eq_none] at hb; omega
    | some b => exact ⟨b, rfl⟩
  obtain ⟨b1, hb1⟩ := hread s.index (by omega)
  have hb1lt : b1 < 256 := hbytes b1 (List.get?_mem hb1)
  unfold procOp
  rw [hb1]
  dsimp only
  cases hop : QoiOp.fromByte b1 <;> dsimp only
  case rgb =>
    obtain ⟨r, hr⟩ := hread (s.index + 1) (by omega)
    obtain ⟨g, hg⟩ := hread (s.index + 1 + 1) (by omega)
    obtain ⟨b, hbb⟩ := hread (s.index + 1 + 2) (by omega)
    rw [hr, hg, hbb]
    exact ⟨_, rfl⟩
  case rgba =>
    obtain ⟨r, hr⟩ := hread (s.index + 1) (by omega)
    obtain ⟨g, hg⟩ := hread (s.index + 1 + 1) (by omega)
    obtain ⟨b, hbb⟩ := hread (s.index + 1 + 2) (by omega)
    obtain ⟨a, ha⟩ := hread (s.index + 1 + 3) (by omega)
    rw [hr, hg, hbb, ha]
    exact ⟨_, rfl⟩
  case index n =>
    obtain ⟨hn, hmask⟩ := fromByte_index b1 n hop
    have hb64 : b1 < 64 := (byte_mask_facts ⟨b1, hb1lt⟩ hmask).2
    have hslot : n < 64 := by omega
    obtain ⟨c, hc⟩ : ∃ c, s.seen_colors.get? n = some c := by
      cases hc : s.seen_colors.get? n with
      | none => rw [List.get?_eq_none] at hc; omega
      | some c => exact ⟨c, rfl⟩
    rw [hc]
    exact ⟨_, rfl⟩
  case diff c => exact ⟨_, rfl⟩
  case luma vg =>
    obtain ⟨b2, hb2⟩ := hread (s.index + 1) (by omega)
    rw [hb2]
    exact ⟨_, rfl⟩
  case run runs => exact ⟨_, rfl⟩
  case unknown => exact absurd hop (fromByte_ne_unknown ⟨b1, hb1lt⟩)

/-- The pixel loop never fails when the end-marker boundary leaves 8 bytes of
slack and the cache has its 64 slots. -/
theorem decodeLoop_total (bytes : List Nat) (cl ch : Nat)
    (hcl : cl + 8 ≤ bytes.length) (hbytes : ∀ b ∈ bytes, b < 256) :
    ∀ n (s : DecState), s.seen_colors.length = 64 →
      ∃ out, decodeLoop bytes cl ch n s = some out := by
  intro n
  induction n with
  | zero => intro s _; exact ⟨[], rfl⟩
  | succ n ih =>
    intro s hlen
    have hstep : ∃ s', decodeStep bytes cl s = some s' := by
      unfold decodeStep
      split
      · exact ⟨_, rfl⟩
      · split
        · rename_i hrun hidx
          obtain ⟨p, hp⟩ := procOp_total bytes cl s hidx hcl hbytes hlen
          rw [hp]
          exact ⟨_, rfl⟩
        · exact ⟨_, rfl⟩
    obtain ⟨s', hs'⟩ := hstep
    have hlen' : s'.seen_colors.length = 64 := by
      rw [decodeStep_seen_length bytes cl s s' hs', hlen]
    obtain ⟨out, hout⟩ := ih s' hlen'
    refine ⟨emitPixel ch s'.prev_color ++ out, ?_⟩
    rw [decodeLoop_succ_some hs', hout]

/-- C10: for every buffer of bytes whose header passes validation, pixel
decoding never goes out of bounds: an opcode byte is read only under the
`index < chunks_len` guard (with `chunks_len = length − 8`), each opcode
consumes at most 4 further bytes, all within the buffer, and an INDEX slot
never misses the 64-entry cache — so `decode_qoi` always returns a decoded
image, never the out-of-bounds panic. -/
theorem C10_no_oob (bytes : List Nat)
    (hbytes : ∀ b ∈ bytes, b < 256)
    (hlen : QOI_HEADER_SIZE ≤ bytes.length)
    (hv : headerValid (parseHeader bytes)) :
    ∃ img, decode_qoi bytes = Except.ok img := by
  have hinv : ¬ headerInvalid (parseHeader bytes) :=
    (headerValid_iff_not_invalid _).mp hv
  simp only [decode_qoi]
  rw [if_neg (by omega), if_neg hinv]
  simp only [QOI_HEADER_SIZE] at hlen
  have hcl : (bytes.length - QOI_END_SEGMENT_SIZE) + 8 ≤ bytes.length := by
    simp only [QOI_END_SEGMENT_SIZE]
    omega
  obtain ⟨out, hout⟩ := decodeLoop_total bytes (bytes.length - QOI_END_SEGMENT_SIZE)
    (parseHeader bytes).channels hcl hbytes
    ((parseHeader bytes).width * (parseHeader bytes).height) initState
    (by simp [initState])
  rw [hout]
  exact ⟨_, rfl⟩

/-- Witness for C10 at the concrete valid image `ex1`. -/
theorem C10_no_oob_witness :
    (∀ b ∈ ex1, b < 256) ∧ QOI_HEADER_SIZE ≤ ex1.length ∧
    headerValid (parseHeader ex1) ∧ (∃ img, decode_qoi ex1 = Except.ok img) :=
  ⟨by decide, by decide, by decide,
   C10_no_oob ex1 (by decide) (by decide) (by decide)⟩
